import Mathlib

/-
  Verification of the resumable concurrent OCR dispatch pipeline
  (peeb01/setup-project).

  The Lean definitions below are shallow embeddings of the Python source:
    - `PageBuffer` embeds the bounded page buffer of src/ocr.py (lines
      126-148) and src/dev-null/ocr.py (lines 33-55), which are identical.
    - The `Main` namespace embeds src/main.py, `Batch` embeds src/batch.py,
      `Ocr` embeds src/ocr.py, `Tqdm` embeds src/tqdm.py, `DevNull` embeds
      src/dev-null/ocr.py.
  Wall-clock timing fields (time.perf_counter floats) are elided throughout:
  they are floating-point timestamps with no bearing on the control flow
  being verified.  Image payloads are abstracted to opaque `Nat` tokens;
  only their count and identity matter to the pipeline logic.
-/

namespace SetupProject

/-! ## Bounded page buffer (src/ocr.py 126-148, src/dev-null/ocr.py 33-55) -/

/-- A buffered work item, as built by `pdf_producer` in src/ocr.py:
the dict with keys pdf, batch_index, images, total_pages.  The image
payloads are opaque; the buffer logic only uses `len(item["images"])`. -/
structure Item where
  pdf : String
  batch_index : Nat
  images : List Nat
  total_pages : Nat
deriving Repr, DecidableEq

/-- The `PageBuffer` state of src/ocr.py lines 126-148 (identical in
src/dev-null/ocr.py lines 33-55): a deque (front = head of list) and the
`pages` counter, a Python int (modelled as `Int` so that "never negative"
is a real statement), plus the configured `max_pages`. -/
structure PageBuffer where
  max_pages : Nat
  buffer : List Item
  pages : Int
deriving Repr, DecidableEq

/-- `PageBuffer.__init__`. -/
def PageBuffer.init (max_pages : Nat) : PageBuffer :=
  { max_pages := max_pages, buffer := [], pages := 0 }

/-- One operation completed on the buffer (the linearized history of
concurrent `put`/`get` calls). -/
inductive BufOp where
  | put (item : Item)
  | get
deriving Repr, DecidableEq

/-- One completed buffer operation.  `put` proceeds only when its wait
condition `self.pages >= self.max_pages` is false, then appends the item
and adds `len(item["images"])`; `get` proceeds only when the deque is
nonempty, then pops the oldest item and subtracts its image count.
A `none` result means the operation would block at this point, so the
given sequence is not a completed history. -/
def PageBuffer.step (b : PageBuffer) : BufOp → Option PageBuffer
  | .put item =>
      if b.pages ≥ (b.max_pages : Int) then none
      else some { b with buffer := b.buffer ++ [item],
                         pages := b.pages + (item.images.length : Int) }
  | .get =>
      match b.buffer with
      | [] => none
      | item :: rest =>
          some { b with buffer := rest,
                        pages := b.pages - (item.images.length : Int) }

/-- Run a linearized sequence of completed buffer operations. -/
def PageBuffer.run (b : PageBuffer) : List BufOp → Option PageBuffer
  | [] => some b
  | op :: ops => (b.step op).bind (fun b' => PageBuffer.run b' ops)

/-- Total number of pages carried by the queued items. -/
def sumPages (l : List Item) : Int :=
  (l.map (fun it => (it.images.length : Int))).sum

/-- Items enqueued by a history, in order. -/
def putsOf : List BufOp → List Item
  | [] => []
  | .put it :: ops => it :: putsOf ops
  | .get :: ops => putsOf ops

/-- Number of dequeues in a history. -/
def getsCount : List BufOp → Nat
  | [] => 0
  | .put _ :: ops => getsCount ops
  | .get :: ops => getsCount ops + 1

/-! ## The OCR backend call, abstracted

The HTTP round trip (`requests.post` + `raise_for_status` + `.json()`)
is a black box; its observable outcome for one request is one of the
cases below.  `requestText` captures the shared Python idiom
`r.raise_for_status(); r.json().get("response", "")`: every non-ok
outcome raises, the ok outcome yields the (possibly missing) "response"
field. -/

/-- Parsed JSON body of a successful Ollama response: the optional
"response" field (`.get("response", "")` supplies "" when missing). -/
structure OllamaBody where
  response : Option String
deriving Repr, DecidableEq

/-- Exceptions a single `requests.post` round trip can raise. -/
inductive ApiError where
  | timeout        -- requests.exceptions.Timeout
  | conn           -- requests.exceptions.ConnectionError
  | status (code : Nat)  -- raise_for_status on a non-success HTTP status
  | badJson        -- r.json() on a malformed body
deriving Repr, DecidableEq

/-- Observable outcome of one backend request. -/
inductive HttpOutcome where
  | ok (body : OllamaBody)
  | badJson
  | httpError (code : Nat)
  | connError
  | timeout
deriving Repr, DecidableEq

/-- `r = requests.post(...); r.raise_for_status(); r.json().get("response", "")`:
raises on every failure mode, otherwise returns the response text. -/
def requestText : HttpOutcome → Except ApiError String
  | .timeout => .error .timeout
  | .connError => .error .conn
  | .httpError c => .error (.status c)
  | .badJson => .error .badJson
  | .ok body => .ok (body.response.getD "")

/-- Whether an outcome is a failure (request timeout, connection error,
non-success status, or malformed response body). -/
def isFailure (o : HttpOutcome) : Bool :=
  match requestText o with
  | .error _ => true
  | .ok _ => false

/-- The Python substring test `pat in s` (for nonempty `pat`):
`s.split(pat)` has more than one part exactly when `pat` occurs in `s`. -/
def containsSub (s pat : String) : Bool :=
  (s.splitOn pat).length != 1

/-- Python `str.strip()`: drop leading and trailing whitespace.  (Defined
by structural recursion on the character list so that the kernel can
evaluate it; Lean's own `String.trim` is defined by well-founded
recursion and does not reduce.) -/
def pyStrip (s : String) : String :=
  String.mk
    (((s.data.dropWhile Char.isWhitespace).reverse.dropWhile
        Char.isWhitespace).reverse)

/-! ## Durable files: manifests and cache entries -/

/-- State of a persisted file as the loader sees it: absent, present but
unparseable JSON, or present and parsed to a value. -/
inductive FileContent (α : Type) where
  | absent
  | corrupt
  | parsed (val : α)
deriving Repr, DecidableEq

/-- `json.loads` raising on a corrupt file. -/
inductive JsonError where
  | parseError
deriving Repr, DecidableEq

/-- One archive record inside a manifest: `{count, files}`. -/
structure ZipRecord where
  count : Nat
  files : List String
deriving Repr, DecidableEq

/-- The per-(service, year) completion ledger
`{schema_version, generated_at, zips}`; `zips` is a JSON object, modelled
as an insertion-ordered association list (Python dict semantics). -/
structure Manifest where
  schema_version : Nat
  generated_at : Option String
  zips : List (String × ZipRecord)
deriving Repr, DecidableEq

/-- The empty ledger `{"schema_version": 1, "generated_at": None, "zips": {}}`. -/
def emptyManifest : Manifest :=
  { schema_version := 1, generated_at := none, zips := [] }

/-- A result cache entry `{filename, pages, text, time_sec}` (time elided). -/
structure CacheEntry where
  filename : String
  pages : Nat
  text : String
deriving Repr, DecidableEq

/-! ## Python dict on Nat keys (insertion-ordered association list)

Used for `results[pdf]["texts"]` in src/ocr.py (a defaultdict keyed by
absolute page index) and src/dev-null/ocr.py (a plain dict keyed by
batch index).  Assignment `d[k] = v` overwrites in place if the key is
present, else appends; `len(d)` is the entry count. -/

/-- `d[k] = v`. -/
def dictSet (d : List (Nat × String)) (k : Nat) (v : String) :
    List (Nat × String) :=
  if d.any (fun p => p.1 == k) then
    d.map (fun p => if p.1 == k then (k, v) else p)
  else d ++ [(k, v)]

/-- `d.get(k)` (`none` when absent). -/
def dictGet (d : List (Nat × String)) (k : Nat) : Option String :=
  (d.find? (fun p => p.1 == k)).map (fun p => p.2)

/-- A batch of deliveries `d[k] = v` applied in order. -/
def dictSetAll (d : List (Nat × String)) (ds : List (Nat × String)) :
    List (Nat × String) :=
  ds.foldl (fun acc p => dictSet acc p.1 p.2) d

namespace Main

/-! ## src/main.py -/

/-- src/main.py line 26. -/
def MAX_PAGES : Nat := 250

/-- `load_manifest` (src/main.py 68-75): parse the persisted file,
swallowing any exception; missing or corrupt files yield the empty ledger. -/
def load_manifest : FileContent Manifest → Manifest
  | .parsed m => m
  | .corrupt => emptyManifest
  | .absent => emptyManifest

/-- `load_all_manifests` (src/main.py 39-53): fold over every manifest
file found on disk, collecting the file names of every archive record of
every manifest that parses; files that raise are skipped.  The result is
the GLOBAL_FINISHED_FILES set (membership in the list models membership
in the set). -/
def load_all_manifests (files : List (FileContent Manifest)) : List String :=
  files.foldl
    (fun acc f =>
      match f with
      | .parsed m => acc ++ (m.zips.map (fun p => p.2.files)).flatten
      | _ => acc)
    []

/-- A document name is recorded in some ledger that parses. -/
def recordedIn (files : List (FileContent Manifest)) (pdf : String) : Prop :=
  ∃ m, FileContent.parsed m ∈ files ∧ ∃ p ∈ m.zips, pdf ∈ p.2.files

/-- One element of `page_tasks` (src/main.py 180): the tuple
`(img, pdf_name, i, total_pages)`. -/
structure PageTask where
  img : Nat
  pdf_name : String
  idx : Nat
  total_pages : Nat
deriving Repr, DecidableEq

/-- Where the per-entry loop body of `process_zip` (src/main.py 141-180)
exits for one zip member. -/
inductive MainOutcome where
  | skipManifest
  | skipCache
  | badPdf
  | skipPages (total : Nat)
  | dispatch (total : Nat)
deriving Repr, DecidableEq

/-- The in-memory assembler state `pdf_buffers[pdf_name]`
(src/main.py 172-177): the fixed slot array `texts` (initially
`[""] * total_pages`) and the total page count.  The `times` array and
`start` timestamp are elided (floats). -/
structure DocState where
  total : Nat
  texts : List String
deriving Repr, DecidableEq

/-- `pdf_buffers[pdf_name] = {"total": total, "texts": [""] * total}`. -/
def DocState.init (total : Nat) : DocState :=
  { total := total, texts := List.replicate total "" }

/-- The locked slot write (src/main.py 190): `state["texts"][idx] = text`,
an unconditional overwrite. -/
def DocState.deliver (s : DocState) (idx : Nat) (text : String) : DocState :=
  { s with texts := s.texts.set idx text }

/-- `done = sum(1 for t in state["texts"] if t)` (src/main.py 192):
Python string truthiness counts exactly the nonempty slots. -/
def DocState.doneCount (s : DocState) : Nat :=
  (s.texts.filter (fun t => t ≠ "")).length

/-- The completion test `done == state["total"]` (src/main.py 196). -/
def DocState.completeNow (s : DocState) : Bool :=
  s.doneCount == s.total

/-- A sequence of slot writes applied in order. -/
def DocState.deliverAll (s : DocState) (ds : List (Nat × String)) : DocState :=
  ds.foldl (fun acc p => acc.deliver p.1 p.2) s

/-- The committed text `"\n\n".join(state["texts"])` (src/main.py 206). -/
def committedText (s : DocState) : String :=
  String.intercalate "\n\n" s.texts

/-- Result of the per-entry loop body of `process_zip`
(src/main.py 141-180) for one `.pdf` zip member: where it exited, the
page tasks it appended, and the assembler state it registered in
`pdf_buffers`. -/
structure EntryResult where
  outcome : MainOutcome
  tasks : List PageTask
  buf : Option DocState
deriving Repr, DecidableEq

/-- The per-entry loop body of `process_zip` (src/main.py 141-180):
skip when the name is in GLOBAL_FINISHED_FILES; else skip when the cache
file exists; else read the page count (`none` models `pdfinfo_from_path`
raising); else reject when over MAX_PAGES; else register the assembler
state and emit one page task per rasterized image. -/
def processZipEntry (globalFinished : List String)
    (cacheFileExists : String → Bool) (pdf_name : String)
    (infoPages : Option Nat) (images : List Nat) : EntryResult :=
  if pdf_name ∈ globalFinished then
    { outcome := .skipManifest, tasks := [], buf := none }
  else if cacheFileExists pdf_name then
    { outcome := .skipCache, tasks := [], buf := none }
  else
    match infoPages with
    | none => { outcome := .badPdf, tasks := [], buf := none }
    | some total_pages =>
        if total_pages > MAX_PAGES then
          { outcome := .skipPages total_pages, tasks := [], buf := none }
        else
          { outcome := .dispatch total_pages,
            tasks := (images.enum.map
              (fun p => { img := p.2, pdf_name := pdf_name, idx := p.1,
                          total_pages := total_pages })),
            buf := some (DocState.init total_pages) }

/-- `ocr_worker` (src/main.py 86-124): resize, encode, post, then
`r.raise_for_status()` and `r.json().get("response", "").strip()` with
no exception handler — every request failure propagates out of the
worker as an exception. -/
def ocr_worker (t : PageTask) (o : HttpOutcome) :
    Except ApiError (String × Nat × String) :=
  match requestText o with
  | .error e => .error e
  | .ok text => .ok (t.pdf_name, t.idx, pyStrip text)

/-- One completed future `(pdf_name, idx, text)` handed to the
assembler loop (src/main.py 185-186). -/
structure Delivery where
  pdf : String
  idx : Nat
  text : String
deriving Repr, DecidableEq

/-- The assembler loop state of the second phase of `process_zip`
(src/main.py 182-227): the in-flight `pdf_buffers` map and the names of
documents committed so far (each commit writes the cache entry, appends
to the manifest archive record and adds to GLOBAL_FINISHED_FILES,
src/main.py 200-220). -/
structure AsmState where
  bufs : List (String × DocState)
  commits : List String
deriving Repr, DecidableEq

/-- Look up a document's assembler state. -/
def lookupBuf (bufs : List (String × DocState)) (pdf : String) :
    Option DocState :=
  (bufs.find? (fun p => p.1 == pdf)).map (fun p => p.2)

/-- Replace a document's assembler state. -/
def setBuf (bufs : List (String × DocState)) (pdf : String) (s : DocState) :
    List (String × DocState) :=
  bufs.map (fun p => if p.1 == pdf then (pdf, s) else p)

/-- The body of the `as_completed` loop (src/main.py 185-227): write the
slot, recount `done`, and commit when `done == total`.  A delivery whose
document has no buffer entry cannot occur in the source (futures come
only from submitted tasks); it is modeled as leaving the state unchanged. -/
def deliverStep (st : AsmState) (d : Delivery) : AsmState :=
  match lookupBuf st.bufs d.pdf with
  | none => st
  | some s =>
      let s' := s.deliver d.idx d.text
      if s'.completeNow then
        { bufs := setBuf st.bufs d.pdf s',
          commits := st.commits ++ [d.pdf] }
      else
        { bufs := setBuf st.bufs d.pdf s', commits := st.commits }

/-- The whole second phase: deliveries in completion order. -/
def runDeliveries (st : AsmState) (ds : List Delivery) : AsmState :=
  ds.foldl deliverStep st

end Main

namespace Batch

/-! ## src/batch.py (and the identical skip head of src/tqdm.py
`process_pdf_from_zip`) -/

/-- src/batch.py line 25. -/
def MAX_PAGES : Nat := 100

/-- src/batch.py line 31. -/
def BATCH_SIZE : Nat := 4

/-- `load_manifest` (src/batch.py 57-61): `json.loads` is NOT wrapped
in a handler, so a file that exists but fails to parse raises. -/
def load_manifest : FileContent Manifest → Except JsonError Manifest
  | .absent => .ok emptyManifest
  | .corrupt => .error .parseError
  | .parsed m => .ok m

/-- `in_manifest` (src/batch.py 72-73). -/
def in_manifest (m : Manifest) (zip_name pdf_name : String) : Bool :=
  match m.zips.find? (fun p => p.1 == zip_name) with
  | some p => p.2.files.contains pdf_name
  | none => false

/-- The `if pdf_name not in z["files"]` body of `add_manifest`
(src/batch.py 78-80). -/
def ZipRecord.addFile (z : ZipRecord) (pdf_name : String) : ZipRecord :=
  if z.files.contains pdf_name then z
  else { count := z.files.length + 1, files := z.files ++ [pdf_name] }

/-- `add_manifest` (src/batch.py 76-80): `setdefault` the archive record's
entry, then append the name if absent and refresh the count. -/
def add_manifest (m : Manifest) (zip_name pdf_name : String) : Manifest :=
  match m.zips.find? (fun p => p.1 == zip_name) with
  | some _ =>
      { m with zips := (m.zips.map (fun p =>
          if p.1 == zip_name then (p.1, ZipRecord.addFile p.2 pdf_name) else p)) }
  | none =>
      { m with zips := (m.zips ++
          [(zip_name, ZipRecord.addFile { count := 0, files := [] } pdf_name)]) }

/-- `load_cache` (src/batch.py 83-90): `none` when the file is absent or
fails to parse (the handler returns None). -/
def load_cache : FileContent CacheEntry → Option CacheEntry
  | .absent => none
  | .corrupt => none
  | .parsed c => some c

/-- `ocr_images_batch` (src/batch.py 99-145): one request per batch of
images; on success the raw response is split on the page marker and each
part stripped; any request failure raises out of the function. -/
def ocr_images_batch (o : HttpOutcome) : Except ApiError (List String) :=
  match requestText o with
  | .error e => .error e
  | .ok raw => .ok ((raw.splitOn "===PAGE===").map pyStrip)

/-- Number of iterations of `range(1, total_pages + 1, BATCH_SIZE)`. -/
def numBatches (total : Nat) : Nat := (total + BATCH_SIZE - 1) / BATCH_SIZE

/-- The batch loop of `process_pdf_from_zip` (src/batch.py 185-219):
one backend call per remaining batch, extending `texts` on success and
breaking out of the loop on the first failure.  Returns the collected
page texts and the number of backend calls issued. -/
def ocrLoop : List HttpOutcome → List String × Nat
  | [] => ([], 0)
  | o :: rest =>
      match ocr_images_batch o with
      | .error _ => ([], 1)
      | .ok ts =>
          let r := ocrLoop rest
          (ts ++ r.1, r.2 + 1)

/-- Where `process_pdf_from_zip` exits. -/
inductive BatchOutcome where
  | skipManifest
  | cacheHit
  | badPdf
  | skipPages (total : Nat)
  | ocr (total : Nat)
deriving Repr, DecidableEq

/-- Observable effects of one `process_pdf_from_zip` call: the exit
taken, the manifest afterwards, the cache entry written (if any), and
the number of backend calls issued. -/
structure BatchResult where
  outcome : BatchOutcome
  manifest : Manifest
  cacheWrite : Option CacheEntry
  ocrCalls : Nat
deriving Repr, DecidableEq

/-- `process_pdf_from_zip` (src/batch.py 148-232).  The same skip head —
manifest test, then cache test with `add_manifest` repair, then page
count, then MAX_PAGES — also opens src/tqdm.py's `process_pdf_from_zip`
(143-164).  `batchOutcomes` supplies the backend outcome for each batch
request the loop would issue. -/
def process_pdf_from_zip (m : Manifest) (zip_key pdf_name : String)
    (cache : FileContent CacheEntry) (infoPages : Option Nat)
    (batchOutcomes : List HttpOutcome) : BatchResult :=
  if in_manifest m zip_key pdf_name then
    { outcome := .skipManifest, manifest := m, cacheWrite := none,
      ocrCalls := 0 }
  else
    match load_cache cache with
    | some _ =>
        { outcome := .cacheHit, manifest := add_manifest m zip_key pdf_name,
          cacheWrite := none, ocrCalls := 0 }
    | none =>
        match infoPages with
        | none =>
            { outcome := .badPdf, manifest := m, cacheWrite := none,
              ocrCalls := 0 }
        | some total =>
            if total > MAX_PAGES then
              { outcome := .skipPages total, manifest := m,
                cacheWrite := none, ocrCalls := 0 }
            else
              let r := ocrLoop (batchOutcomes.take (numBatches total))
              { outcome := .ocr total,
                manifest := add_manifest m zip_key pdf_name,
                cacheWrite := some
                  { filename := pdf_name, pages := total,
                    text := pyStrip (String.intercalate "\n\n" r.1) },
                ocrCalls := r.2 }

end Batch

namespace Ocr

/-! ## src/ocr.py -/

/-- The per-image try body of `ocr_batch` (src/ocr.py 110-122): on any
request failure the handler appends ""; on success the text is stripped
and blanked when it echoes the instruction prompt. -/
def ocrBatchOne (o : HttpOutcome) : String :=
  match requestText o with
  | .error _ => ""
  | .ok raw =>
      let text := pyStrip raw
      if containsSub text "Extract all text" then "" else text

/-- `ocr_batch` (src/ocr.py 72-124): one request per image; each
iteration's failure is isolated, so the result always has one text per
image and never raises. -/
def ocr_batch (os : List HttpOutcome) : List String :=
  os.map ocrBatchOne

/-- The commit-time ordered join of `ocr_consumer` (src/ocr.py 200-204):
`"\n".join(results[pdf]["texts"].get(i, "") for i in range(total)).strip()`
— a SINGLE newline between consecutive pages, then a trim. -/
def committedText (total : Nat) (texts : List (Nat × String)) : String :=
  (String.intercalate "\n"
    ((List.range total).map (fun i => (dictGet texts i).getD "")))
    |> pyStrip

end Ocr

namespace Tqdm

/-! ## src/tqdm.py -/

/-- src/tqdm.py line 123. -/
def MAX_RETRIES : Nat := 3

/-- The retry loop of `ocr_single_image` (src/tqdm.py 123-141), with the
outcomes of the successive attempts supplied as a list (head = first
attempt; a nonempty tail means `attempt < max_retries - 1`, i.e. another
attempt remains).  Connection errors and timeouts retry until attempts
are exhausted, then yield ""; any other failure yields "" at once;
success returns the stripped text. -/
def ocrSingleAux : List HttpOutcome → String
  | [] => ""
  | o :: rest =>
      match requestText o with
      | .ok raw => pyStrip raw
      | .error .timeout => if rest.isEmpty then "" else ocrSingleAux rest
      | .error .conn => if rest.isEmpty then "" else ocrSingleAux rest
      | .error _ => ""

/-- `ocr_single_image` (src/tqdm.py 88-141): at most MAX_RETRIES attempts. -/
def ocr_single_image (outs : List HttpOutcome) : String :=
  ocrSingleAux (outs.take MAX_RETRIES)

/-- The page loop of `process_pdf_from_zip` (src/tqdm.py 170-192) keeps
only nonempty page texts: `if text: texts.append(text)`. -/
def collectTexts (results : List String) : List String :=
  results.filter (fun t => t ≠ "")

/-- `full_text = "\n\n".join(texts).strip()` (src/tqdm.py 195). -/
def full_text (results : List String) : String :=
  pyStrip (String.intercalate "\n\n" (collectTexts results))

/-- The commit guard `if full_text:` (src/tqdm.py 197): the cache entry
is written and the manifest updated only when the joined text is
nonempty. -/
def commits (results : List String) : Bool :=
  full_text results ≠ ""

end Tqdm

namespace DevNull

/-! ## src/dev-null/ocr.py -/

/-- The slot write of `ocr_consumer` (src/dev-null/ocr.py 170):
`results[pdf]["texts"][batch_idx] = text_result` — an unconditional
dict overwrite, same semantics as `dictSet`. -/
def deliverText (texts : List (Nat × String)) (batch_idx : Nat)
    (text_result : String) : List (Nat × String) :=
  dictSet texts batch_idx text_result

/-- The completion test of `ocr_consumer` (src/dev-null/ocr.py 172):
`len(results[pdf]["texts"]) == total_pages`. -/
def completeNow (texts : List (Nat × String)) (total_pages : Nat) : Bool :=
  texts.length == total_pages

end DevNull

/-- Bool-level check that every enqueued item carries at most one page. -/
def allSinglePage (ops : List BufOp) : Bool :=
  ops.all (fun op =>
    match op with
    | .put it => it.images.length ≤ 1
    | .get => true)

/-! # Theorems -/

theorem sumPages_nonneg (l : List Item) : 0 ≤ sumPages l := by
  induction l with
  | nil => simp [sumPages]
  | cons it rest ih =>
      simp only [sumPages, List.map_cons, List.sum_cons]
      have h : (0 : Int) ≤ (it.images.length : Int) := Int.ofNat_nonneg _
      have := ih
      simp only [sumPages] at this
      omega

theorem sumPages_append (l₁ l₂ : List Item) :
    sumPages (l₁ ++ l₂) = sumPages l₁ + sumPages l₂ := by
  simp [sumPages]

/-- After any completed history, the `pages` counter equals the summed
image count of the queued items (single-step preservation folded into a
run-level induction). -/
theorem run_pages_eq_sumPages (ops : List BufOp) (b b' : PageBuffer)
    (hinv : b.pages = sumPages b.buffer)
    (hrun : b.run ops = some b') : b'.pages = sumPages b'.buffer := by
  induction ops generalizing b with
  | nil =>
      simp only [PageBuffer.run] at hrun
      cases hrun
      exact hinv
  | cons op ops ih =>
      simp only [PageBuffer.run, Option.bind] at hrun
      cases hstep : b.step op with
      | none => rw [hstep] at hrun; cases hrun
      | some b₁ =>
          rw [hstep] at hrun
          refine ih b₁ ?_ hrun
          cases op with
          | put item =>
              simp only [PageBuffer.step] at hstep
              by_cases hc : b.pages ≥ (b.max_pages : Int)
              · simp [hc] at hstep
              · simp only [hc, if_neg, ite_false] at hstep
                cases hstep
                simp [sumPages_append, sumPages, hinv]
          | get =>
              simp only [PageBuffer.step] at hstep
              cases hbuf : b.buffer with
              | nil => rw [hbuf] at hstep; cases hstep
              | cons item rest =>
                  rw [hbuf] at hstep
                  cases hstep
                  rw [hbuf] at hinv
                  simp only [sumPages, List.map_cons, List.sum_cons] at hinv
                  simp only [sumPages]
                  omega

/-- After any completed history the queue holds exactly the not-yet-dequeued
items, in the order they were enqueued (FIFO). -/
theorem run_buffer_fifo (ops : List BufOp) (b b' : PageBuffer)
    (hrun : b.run ops = some b') :
    b'.buffer = (b.buffer ++ putsOf ops).drop (getsCount ops) := by
  induction ops generalizing b with
  | nil =>
      simp only [PageBuffer.run] at hrun
      cases hrun
      simp [putsOf, getsCount]
  | cons op ops ih =>
      simp only [PageBuffer.run, Option.bind] at hrun
      cases hstep : b.step op with
      | none => rw [hstep] at hrun; cases hrun
      | some b₁ =>
          rw [hstep] at hrun
          have h₁ := ih b₁ hrun
          cases op with
          | put item =>
              simp only [PageBuffer.step] at hstep
              by_cases hc : b.pages ≥ (b.max_pages : Int)
              · simp [hc] at hstep
              · simp only [hc, if_neg, ite_false] at hstep
                cases hstep
                simp only [putsOf, getsCount, h₁]
                simp [List.append_assoc]
          | get =>
              simp only [PageBuffer.step] at hstep
              cases hbuf : b.buffer with
              | nil => rw [hbuf] at hstep; cases hstep
              | cons item rest =>
                  rw [hbuf] at hstep
                  cases hstep
                  simp only [putsOf, getsCount, h₁, hbuf]
                  simp [List.drop_succ_cons]

/-- `max_pages` is constant across a run. -/
theorem run_max_pages (ops : List BufOp) (b b' : PageBuffer)
    (hrun : b.run ops = some b') : b'.max_pages = b.max_pages := by
  induction ops generalizing b with
  | nil =>
      simp only [PageBuffer.run] at hrun
      cases hrun
      rfl
  | cons op ops ih =>
      simp only [PageBuffer.run, Option.bind] at hrun
      cases hstep : b.step op with
      | none => rw [hstep] at hrun; cases hrun
      | some b₁ =>
          rw [hstep] at hrun
          have h₁ := ih b₁ hrun
          rw [h₁]
          cases op with
          | put item =>
              simp only [PageBuffer.step] at hstep
              by_cases hc : b.pages ≥ (b.max_pages : Int)
              · simp [hc] at hstep
              · simp only [hc, if_neg, ite_false] at hstep
                cases hstep
                rfl
          | get =>
              simp only [PageBuffer.step] at hstep
              cases hbuf : b.buffer with
              | nil => rw [hbuf] at hstep; cases hstep
              | cons item rest =>
                  rw [hbuf] at hstep
                  cases hstep
                  rfl

/-- When every enqueued item carries at most one page, the counter stays
at or below capacity across a run (and the sum invariant is maintained). -/
theorem run_bounded_of_single (ops : List BufOp) (b b' : PageBuffer)
    (hone : ∀ it, BufOp.put it ∈ ops → it.images.length ≤ 1)
    (hinv : b.pages = sumPages b.buffer)
    (hle : b.pages ≤ (b.max_pages : Int))
    (hrun : b.run ops = some b') :
    b'.pages ≤ (b'.max_pages : Int) := by
  induction ops generalizing b with
  | nil =>
      simp only [PageBuffer.run] at hrun
      cases hrun
      exact hle
  | cons op ops ih =>
      simp only [PageBuffer.run, Option.bind] at hrun
      cases hstep : b.step op with
      | none => rw [hstep] at hrun; cases hrun
      | some b₁ =>
          rw [hstep] at hrun
          have hone' : ∀ it, BufOp.put it ∈ ops → it.images.length ≤ 1 := by
            intro it hmem
            exact hone it (List.mem_cons_of_mem _ hmem)
          cases op with
          | put item =>
              simp only [PageBuffer.step] at hstep
              by_cases hc : b.pages ≥ (b.max_pages : Int)
              · simp [hc] at hstep
              · simp only [hc, if_neg, ite_false] at hstep
                cases hstep
                refine ih _ hone' ?_ ?_ hrun
                · simp [sumPages_append, sumPages, hinv]
                · have hlen : item.images.length ≤ 1 :=
                    hone item (List.mem_cons_self _ _)
                  have : (item.images.length : Int) ≤ 1 := by exact_mod_cast hlen
                  simp only
                  omega
          | get =>
              simp only [PageBuffer.step] at hstep
              cases hbuf : b.buffer with
              | nil => rw [hbuf] at hstep; cases hstep
              | cons item rest =>
                  rw [hbuf] at hstep
                  cases hstep
                  refine ih _ hone' ?_ ?_ hrun
                  · rw [hbuf] at hinv
                    simp only [sumPages, List.map_cons, List.sum_cons] at hinv
                    simp only [sumPages]
                    omega
                  · have : (0 : Int) ≤ (item.images.length : Int) :=
                      Int.ofNat_nonneg _
                    simp only
                    omega

theorem allSinglePage_spec (ops : List BufOp) (h : allSinglePage ops = true) :
    ∀ it, BufOp.put it ∈ ops → it.images.length ≤ 1 := by
  intro it hmem
  have hall := List.all_eq_true.mp h _ hmem
  simpa using hall

/-- Claim C10: for every PageBuffer, after any completed linearized
sequence of put/get operations starting from the freshly constructed
buffer, the `pages` counter equals the sum of `len(item["images"])` over
the items currently queued in the internal deque, and hence is never
negative. -/
theorem C10_pages_counter_invariant (cap : Nat) (ops : List BufOp)
    (b' : PageBuffer) (hrun : (PageBuffer.init cap).run ops = some b') :
    b'.pages = sumPages b'.buffer ∧ 0 ≤ b'.pages := by
  have h := run_pages_eq_sumPages ops (PageBuffer.init cap) b'
    (by simp [PageBuffer.init, sumPages]) hrun
  exact ⟨h, h ▸ sumPages_nonneg _⟩

theorem C10_witness :
    (⟨2, [], 0⟩ : PageBuffer).pages = sumPages (⟨2, [], 0⟩ : PageBuffer).buffer ∧
      0 ≤ (⟨2, [], 0⟩ : PageBuffer).pages :=
  C10_pages_counter_invariant 2
    [BufOp.put ⟨"a.pdf", 0, [7], 1⟩, BufOp.get] ⟨2, [], 0⟩ (by rfl)

/-- Claim C2 counterexample: the claim asserts the tracked page count
never exceeds `max_pages` for all item page counts, including items
carrying more than one page.  But `put` only waits while
`pages >= max_pages` and then adds the whole item's page count, so a
single put of a 3-page item into an empty buffer of capacity 2 is a
completed history that drives `pages` to 3 > 2. -/
theorem C2_counterexample :
    (PageBuffer.init 2).run [BufOp.put ⟨"doc.pdf", 0, [0, 1, 2], 3⟩] =
      some ⟨2, [⟨"doc.pdf", 0, [0, 1, 2], 3⟩], 3⟩ ∧
    ¬((3 : Int) ≤ ((2 : Nat) : Int)) := by
  exact ⟨by rfl, by decide⟩

/-- Claim C2 (amended): after every completed history of put/get calls —
items of any page count included — the tracked page count never goes
negative, `put` proceeds only when the count is below capacity, and
`get` proceeds only when the buffer is nonempty and dequeues the oldest
item (the final queue is the enqueued items minus the first `getsCount`
dequeues, in order).  Provided every enqueued item carries at most one
page, the count moreover never exceeds the capacity; an item carrying
more than one page can drive the count past the capacity by up to its
page count minus one. -/
theorem C2_bounded_buffer_amended (cap : Nat) (ops : List BufOp)
    (b' : PageBuffer) (hrun : (PageBuffer.init cap).run ops = some b') :
    0 ≤ b'.pages ∧
      b'.buffer = (putsOf ops).drop (getsCount ops) ∧
      (allSinglePage ops = true → b'.pages ≤ (cap : Int)) := by
  have hinv0 : (PageBuffer.init cap).pages = sumPages (PageBuffer.init cap).buffer := by
    simp [PageBuffer.init, sumPages]
  have hsum := run_pages_eq_sumPages ops _ b' hinv0 hrun
  have hmax := run_max_pages ops _ b' hrun
  have hfifo := run_buffer_fifo ops _ b' hrun
  refine ⟨hsum ▸ sumPages_nonneg _, ?_, ?_⟩
  · simpa [PageBuffer.init] using hfifo
  · intro hone
    have hbound := run_bounded_of_single ops _ b' (allSinglePage_spec ops hone)
      hinv0 (by simp [PageBuffer.init]) hrun
    rw [hmax] at hbound
    simpa [PageBuffer.init] using hbound

theorem C2_witness :
    0 ≤ (⟨2, [⟨"c.pdf", 0, [8, 9], 2⟩], 2⟩ : PageBuffer).pages ∧
      (⟨2, [⟨"c.pdf", 0, [8, 9], 2⟩], 2⟩ : PageBuffer).buffer =
        (putsOf [BufOp.put ⟨"a.pdf", 0, [5], 1⟩, BufOp.get,
                 BufOp.put ⟨"c.pdf", 0, [8, 9], 2⟩]).drop
          (getsCount [BufOp.put ⟨"a.pdf", 0, [5], 1⟩, BufOp.get,
                      BufOp.put ⟨"c.pdf", 0, [8, 9], 2⟩]) ∧
      (allSinglePage [BufOp.put ⟨"a.pdf", 0, [5], 1⟩, BufOp.get,
          BufOp.put ⟨"c.pdf", 0, [8, 9], 2⟩] = true →
        (⟨2, [⟨"c.pdf", 0, [8, 9], 2⟩], 2⟩ : PageBuffer).pages ≤
          ((2 : Nat) : Int)) :=
  C2_bounded_buffer_amended 2
    [BufOp.put ⟨"a.pdf", 0, [5], 1⟩, BufOp.get,
     BufOp.put ⟨"c.pdf", 0, [8, 9], 2⟩]
    ⟨2, [⟨"c.pdf", 0, [8, 9], 2⟩], 2⟩ (by rfl)

theorem dictGet_dictSet_self (d : List (Nat × String)) (k : Nat) (v : String) :
    dictGet (dictSet d k v) k = some v := by
  unfold dictSet dictGet
  by_cases h : d.any (fun p => p.1 == k) = true
  · rw [if_pos h, List.find?_map]
    have hcongr : ((fun p => p.1 == k) ∘
        (fun p => if p.1 == k then ((k, v) : Nat × String) else p)) =
        (fun p : Nat × String => p.1 == k) := by
      funext p
      by_cases hp : p.1 = k
      · simp [hp]
      · simp [hp]
    rw [hcongr]
    have hsome : (d.find? (fun p => p.1 == k)).isSome := by
      rcases List.any_eq_true.mp h with ⟨x, hx, hpx⟩
      exact List.find?_isSome.mpr ⟨x, hx, hpx⟩
    cases hfind : d.find? (fun p => p.1 == k) with
    | none => rw [hfind] at hsome; cases hsome
    | some p0 =>
        have hp0 : (p0.1 == k) = true :=
          List.find?_some (p := fun q : Nat × String => q.1 == k) hfind
        have hp0' : p0.1 = k := by simpa using hp0
        simp [hfind, hp0']
  · rw [if_neg h]
    have hnone : d.find? (fun p => p.1 == k) = none := by
      refine List.find?_eq_none.mpr (fun x hx hpx => ?_)
      exact h (List.any_eq_true.mpr ⟨x, hx, hpx⟩)
    simp [dictGet, List.find?_append, hnone]

theorem dictGet_dictSet_ne (d : List (Nat × String)) (k k' : Nat) (v : String)
    (hne : k' ≠ k) : dictGet (dictSet d k v) k' = dictGet d k' := by
  unfold dictSet dictGet
  by_cases h : d.any (fun p => p.1 == k) = true
  · rw [if_pos h, List.find?_map]
    have hcongr : ((fun p => p.1 == k') ∘
        (fun p => if p.1 == k then ((k, v) : Nat × String) else p)) =
        (fun p : Nat × String => p.1 == k') := by
      funext p
      by_cases hp : p.1 = k
      · simp [hp, Ne.symm hne, (Ne.symm hne : ¬ k = k')]
      · simp [hp]
    rw [hcongr]
    cases hfind : d.find? (fun p => p.1 == k') with
    | none => simp
    | some p0 =>
        have hp0 : (p0.1 == k') = true :=
          List.find?_some (p := fun q : Nat × String => q.1 == k') hfind
        have hp0' : p0.1 = k' := by simpa using hp0
        have : p0.1 ≠ k := by rw [hp0']; exact hne
        simp [this]
  · rw [if_neg h, List.find?_append]
    have hlast : List.find? (fun p => p.1 == k') [(k, v)] = none := by
      simp [Ne.symm hne, (Ne.symm hne : ¬ k = k')]
    rw [hlast]
    cases d.find? (fun p => p.1 == k') <;> rfl

theorem dictSet_length_of_mem (d : List (Nat × String)) (k : Nat) (v : String)
    (h : d.any (fun p => p.1 == k) = true) :
    (dictSet d k v).length = d.length := by
  unfold dictSet
  rw [if_pos h, List.length_map]

theorem dictGet_dictSetAll (ds : List (Nat × String)) (d : List (Nat × String))
    (i : Nat) (v : String) (hall : ∀ p ∈ ds, p.1 = i → p.2 = v) :
    dictGet (dictSetAll d ds) i =
      if ds.any (fun p => p.1 == i) then some v else dictGet d i := by
  induction ds generalizing d with
  | nil => simp [dictSetAll]
  | cons q ds ih =>
      have hall' : ∀ p ∈ ds, p.1 = i → p.2 = v :=
        fun p hp => hall p (List.mem_cons_of_mem _ hp)
      have hstep : dictSetAll d (q :: ds) = dictSetAll (dictSet d q.1 q.2) ds := rfl
      rw [hstep, ih _ hall']
      by_cases hany : ds.any (fun p => p.1 == i) = true
      · rw [if_pos hany, if_pos]
        simp [List.any_cons, hany]
      · rw [if_neg hany]
        by_cases hq : q.1 = i
        · have hv : q.2 = v := hall q (List.mem_cons_self _ _) hq
          rw [hq, hv, dictGet_dictSet_self, if_pos]
          simp [List.any_cons, hq]
        · rw [dictGet_dictSet_ne d q.1 i q.2 (fun hh => hq hh.symm), if_neg]
          simp [List.any_cons, hq, hany]

/-- A `String → Bool` predicate's count over `filter` is unchanged by a
slot overwrite whose new value satisfies the predicate exactly when the
old one did. -/
theorem length_filter_set (p : String → Bool) (l : List String) (i : Nat)
    (b : String) (hi : i < l.length) (hpb : p b = p (l.get ⟨i, hi⟩)) :
    ((l.set i b).filter p).length = (l.filter p).length := by
  induction l generalizing i with
  | nil => simp at hi
  | cons a l ih =>
      cases i with
      | zero =>
          simp only [List.get] at hpb
          simp only [List.set]
          cases hpa : p a <;> simp [List.filter_cons, hpb, hpa]
      | succ n =>
          simp only [List.get] at hpb
          have hn : n < l.length := by simpa using hi
          simp only [List.set]
          cases hpa : p a <;> simp [List.filter_cons, hpa, ih n hn hpb]

/-- Claim C3 counterexample: the claim asserts a page whose OCR call
returned the empty string still counts toward completion and the
document is committed with gaps.  In src/main.py the completion count is
`sum(1 for t in texts if t)`, which counts only NONEMPTY slots: for a
one-page document whose only page is delivered with empty text, all
pages have a delivered result yet the completion test is false, so the
document is never committed.  Likewise src/tqdm.py drops empty page
texts and refuses to cache a document whose joined text is empty. -/
theorem C3_counterexample :
    ((Main.DocState.init 1).deliver 0 "").completeNow = false ∧
      Tqdm.commits [""] = false := by
  constructor
  · rfl
  · decide

/-- Claim C3 (amended): the assembler of src/main.py detects completion
exactly when the number of pages with a NONEMPTY delivered text equals
the document's total page count — a page whose OCR call returned the
empty string does not count toward completion, so a document with an
empty-text page is not committed by that delivery; and in src/tqdm.py
empty page texts are dropped from the join and a document all of whose
pages produced empty text is never cached. -/
theorem C3_completion_amended (s : Main.DocState)
    (hlen : s.texts.length = s.total) :
    (s.completeNow = true ↔ ∀ t ∈ s.texts, t ≠ "") ∧
    (∀ results : List String, (∀ t ∈ results, t = "") →
        Tqdm.commits results = false) := by
  constructor
  · unfold Main.DocState.completeNow Main.DocState.doneCount
    rw [beq_iff_eq, ← hlen]
    constructor
    · intro h t ht
      have := List.filter_length_eq_length.mp h t ht
      simpa using this
    · intro h
      exact List.filter_length_eq_length.mpr (fun a ha => by simpa using h a ha)
  · intro results hres
    unfold Tqdm.commits Tqdm.full_text Tqdm.collectTexts
    have hnil : results.filter (fun t => t ≠ "") = [] :=
      List.filter_eq_nil_iff.mpr (fun a ha => by simpa using hres a ha)
    rw [hnil]
    decide

theorem C3_witness :
    ((⟨2, ["x", "y"]⟩ : Main.DocState).completeNow = true ↔
        ∀ t ∈ (⟨2, ["x", "y"]⟩ : Main.DocState).texts, t ≠ "") ∧
    (∀ results : List String, (∀ t ∈ results, t = "") →
        Tqdm.commits results = false) :=
  C3_completion_amended ⟨2, ["x", "y"]⟩ (by rfl)

/-- Claim C5 counterexample: the claim asserts that when a slot is
already filled, a second delivery for the same (document, page) pair is
ignored and leaves the slot's text unchanged.  In src/main.py the slot
write `state["texts"][idx] = text` is unconditional: delivering "a" then
"b" to slot 0 leaves "b", not the first result "a". -/
theorem C5_counterexample :
    ((Main.DocState.init 2).deliver 0 "a").texts[0]? = some "a" ∧
    (((Main.DocState.init 2).deliver 0 "a").deliver 0 "b").texts[0]? = some "b" ∧
    (some "b" : Option String) ≠ some "a" := by
  refine ⟨rfl, rfl, by decide⟩

/-- Claim C5 (amended): a second delivery for an already-filled
(document, page) pair OVERWRITES the slot's text with the later result,
in both src/main.py (slot array write) and src/dev-null/ocr.py (dict
write); the completed-count is unchanged by the re-delivery — in
src/main.py because the count counts nonempty slots and both old and new
texts are nonempty, in src/dev-null/ocr.py because the dict already
contains the key. -/
theorem C5_redelivery_amended (s : Main.DocState) (idx : Nat) (tnew : String)
    (hidx : idx < s.texts.length) (hold : s.texts[idx] ≠ "")
    (hnew : tnew ≠ "") :
    (s.deliver idx tnew).texts[idx]? = some tnew ∧
    (s.deliver idx tnew).doneCount = s.doneCount ∧
    (∀ d : List (Nat × String), d.any (fun p => p.1 == idx) = true →
        (DevNull.deliverText d idx tnew).length = d.length ∧
        dictGet (DevNull.deliverText d idx tnew) idx = some tnew) := by
  refine ⟨?_, ?_, ?_⟩
  · unfold Main.DocState.deliver
    exact List.getElem?_set_self hidx
  · unfold Main.DocState.deliver Main.DocState.doneCount
    exact length_filter_set _ s.texts idx tnew hidx (by simp [hold, hnew])
  · intro d hd
    exact ⟨dictSet_length_of_mem d idx tnew hd, dictGet_dictSet_self d idx tnew⟩

theorem C5_witness :
    0 < (⟨2, ["a", "y"]⟩ : Main.DocState).texts.length ∧
    (((⟨2, ["a", "y"]⟩ : Main.DocState).deliver 0 "b").texts[0]? = some "b" ∧
     ((⟨2, ["a", "y"]⟩ : Main.DocState).deliver 0 "b").doneCount =
       (⟨2, ["a", "y"]⟩ : Main.DocState).doneCount ∧
     (∀ d : List (Nat × String), d.any (fun p => p.1 == 0) = true →
        (DevNull.deliverText d 0 "b").length = d.length ∧
        dictGet (DevNull.deliverText d 0 "b") 0 = some "b")) :=
  ⟨by decide,
   C5_redelivery_amended ⟨2, ["a", "y"]⟩ 0 "b" (by decide) (by decide) (by decide)⟩

theorem deliverAll_texts_length (ds : List (Nat × String)) (s : Main.DocState) :
    (Main.DocState.deliverAll s ds).texts.length = s.texts.length := by
  induction ds generalizing s with
  | nil => rfl
  | cons q ds ih =>
      have hstep : Main.DocState.deliverAll s (q :: ds) =
          Main.DocState.deliverAll (s.deliver q.1 q.2) ds := rfl
      rw [hstep, ih]
      simp [Main.DocState.deliver]

theorem deliverAll_texts_getElem? (ds : List (Nat × String)) (s : Main.DocState)
    (i : Nat) (v : String) (hall : ∀ p ∈ ds, p.1 = i → p.2 = v)
    (hi : i < s.texts.length) :
    (Main.DocState.deliverAll s ds).texts[i]? =
      if ds.any (fun p => p.1 == i) then some v else s.texts[i]? := by
  induction ds generalizing s with
  | nil => simp [Main.DocState.deliverAll]
  | cons q ds ih =>
      have hall' : ∀ p ∈ ds, p.1 = i → p.2 = v :=
        fun p hp => hall p (List.mem_cons_of_mem _ hp)
      have hstep : Main.DocState.deliverAll s (q :: ds) =
          Main.DocState.deliverAll (s.deliver q.1 q.2) ds := rfl
      have hi' : i < (s.deliver q.1 q.2).texts.length := by
        simpa [Main.DocState.deliver] using hi
      rw [hstep, ih _ hall' hi']
      by_cases hany : ds.any (fun p => p.1 == i) = true
      · rw [if_pos hany, if_pos]
        simp [List.any_cons, hany]
      · rw [if_neg hany]
        by_cases hq : q.1 = i
        · have hv : q.2 = v := hall q (List.mem_cons_self _ _) hq
          rw [if_pos]
          · show (s.texts.set q.1 q.2)[i]? = some v
            rw [hq, hv]
            exact List.getElem?_set_self hi
          · simp [List.any_cons, hq]
        · rw [if_neg]
          · show (s.texts.set q.1 q.2)[i]? = s.texts[i]?
            exact List.getElem?_set_ne hq
          · simp [List.any_cons, hq, hany]

theorem deliverAll_texts_eq (total : Nat) (f : Nat → String)
    (ds : List (Nat × String))
    (hcover : ∀ i, i < total → (i, f i) ∈ ds)
    (hsound : ∀ p ∈ ds, p.1 < total ∧ p.2 = f p.1) :
    ((Main.DocState.init total).deliverAll ds).texts =
      (List.range total).map f := by
  apply List.ext_getElem?
  intro n
  by_cases hn : n < total
  · have hlen : n < (Main.DocState.init total).texts.length := by
      simp [Main.DocState.init, hn]
    have hall : ∀ p ∈ ds, p.1 = n → p.2 = f n := by
      intro p hp hpn
      have h2 := (hsound p hp).2
      rw [h2, hpn]
    rw [deliverAll_texts_getElem? ds _ n (f n) hall hlen]
    have hany : ds.any (fun p => p.1 == n) = true :=
      List.any_eq_true.mpr ⟨(n, f n), hcover n hn, by simp⟩
    rw [if_pos hany, List.getElem?_map, List.getElem?_range hn]
    rfl
  · have h1 : ((Main.DocState.init total).deliverAll ds).texts.length = total := by
      rw [deliverAll_texts_length]
      simp [Main.DocState.init]
    rw [List.getElem?_eq_none (by rw [h1]; omega),
        List.getElem?_eq_none (by simp; omega)]

/-- Claim C4 counterexample: the claim asserts the committed text joins
the per-page texts with a blank-line separator (two newlines between
consecutive pages).  The cited `ocr_consumer` commit (src/ocr.py 204)
uses `"\n".join(...)` — a SINGLE newline: for a two-page document with
page texts "a" and "b" the committed text is "a\nb", not "a\n\nb". -/
theorem C4_counterexample :
    Ocr.committedText 2 (dictSetAll [] [(0, "a"), (1, "b")]) = "a\nb" ∧
      ("a\nb" : String) ≠ "a\n\nb" := by
  exact ⟨by decide, by decide⟩

/-- Claim C4 (amended): for every document with N pages, whatever order
the per-page results arrive in (any delivery sequence containing the
result of every page, all deliveries carrying the page's own text), the
committed text equals the per-page texts joined in ascending page-index
order — with a single newline between consecutive pages and stripped of
surrounding whitespace in `ocr_consumer` (src/ocr.py), and with a
blank-line (two-newline) separator and no final strip in `process_zip`
(src/main.py, whose committed page texts are individually stripped and
nonempty). -/
theorem C4_order_amended (total : Nat) (f : Nat → String)
    (ds : List (Nat × String))
    (hcover : ∀ i, i < total → (i, f i) ∈ ds)
    (hsound : ∀ p ∈ ds, p.1 < total ∧ p.2 = f p.1) :
    Ocr.committedText total (dictSetAll [] ds) =
      pyStrip (String.intercalate "\n" ((List.range total).map f)) ∧
    Main.committedText ((Main.DocState.init total).deliverAll ds) =
      String.intercalate "\n\n" ((List.range total).map f) := by
  constructor
  · unfold Ocr.committedText
    have hmap : (List.range total).map
        (fun i => (dictGet (dictSetAll [] ds) i).getD "") =
        (List.range total).map f := by
      apply List.map_congr_left
      intro i hi
      have hilt : i < total := List.mem_range.mp hi
      have hall : ∀ p ∈ ds, p.1 = i → p.2 = f i := by
        intro p hp hpi
        have h2 := (hsound p hp).2
        rw [h2, hpi]
      have hany : ds.any (fun p => p.1 == i) = true :=
        List.any_eq_true.mpr ⟨(i, f i), hcover i hilt, by simp⟩
      rw [dictGet_dictSetAll ds [] i (f i) hall, if_pos hany]
      rfl
    rw [hmap]
  · unfold Main.committedText
    rw [deliverAll_texts_eq total f ds hcover hsound]

theorem C4_witness :
    Ocr.committedText 2 (dictSetAll [] [(1, "b"), (0, "a")]) =
      pyStrip (String.intercalate "\n"
        ((List.range 2).map (fun i => if i == 0 then "a" else "b"))) ∧
    Main.committedText
        ((Main.DocState.init 2).deliverAll [(1, "b"), (0, "a")]) =
      String.intercalate "\n\n"
        ((List.range 2).map (fun i => if i == 0 then "a" else "b")) :=
  C4_order_amended 2 (fun i => if i == 0 then "a" else "b")
    [(1, "b"), (0, "a")] (by decide) (by decide)

theorem ocrSingleAux_all_fail (l : List HttpOutcome)
    (h : ∀ o ∈ l, isFailure o = true) : Tqdm.ocrSingleAux l = "" := by
  induction l with
  | nil => rfl
  | cons o rest ih =>
      have ho := h o (List.mem_cons_self _ _)
      have hrest : ∀ x ∈ rest, isFailure x = true :=
        fun x hx => h x (List.mem_cons_of_mem _ hx)
      cases o with
      | ok body => simp [isFailure, requestText] at ho
      | badJson => simp [Tqdm.ocrSingleAux, requestText]
      | httpError c => simp [Tqdm.ocrSingleAux, requestText]
      | connError =>
          by_cases hr : rest.isEmpty <;>
            simp [Tqdm.ocrSingleAux, requestText, hr, ih hrest]
      | timeout =>
          by_cases hr : rest.isEmpty <;>
            simp [Tqdm.ocrSingleAux, requestText, hr, ih hrest]

/-- Claim C6 counterexample: the claim asserts the worker never
propagates an exception out of the worker function.  src/main.py's
`ocr_worker` (lines 86-124) has NO exception handler: a failing request
(here a timeout) propagates out of the worker as an exception (and
re-raises at `f.result()` in `process_zip`), rather than producing an
empty-text result. -/
theorem C6_counterexample :
    Main.ocr_worker ⟨0, "doc.pdf", 0, 1⟩ HttpOutcome.timeout =
      Except.error ApiError.timeout := rfl

/-- Claim C6 (amended): src/ocr.py's `ocr_batch` catches every per-page
failure (timeout, non-success status, malformed body) and contributes
empty text, one result per image, never raising; src/tqdm.py's
`ocr_single_image` retries connection failures and timeouts up to
MAX_RETRIES attempts and returns empty text when every attempt fails,
never raising.  src/main.py's `ocr_worker`, by contrast, performs no
exception handling and propagates the failure to its caller. -/
theorem C6_failure_isolation_amended :
    (∀ o : HttpOutcome, isFailure o = true → Ocr.ocrBatchOne o = "") ∧
    (∀ os : List HttpOutcome, (Ocr.ocr_batch os).length = os.length) ∧
    (∀ outs : List HttpOutcome, (∀ o ∈ outs, isFailure o = true) →
        Tqdm.ocr_single_image outs = "") := by
  refine ⟨?_, ?_, ?_⟩
  · intro o ho
    cases o with
    | ok body => simp [isFailure, requestText] at ho
    | badJson => rfl
    | httpError c => rfl
    | connError => rfl
    | timeout => rfl
  · intro os
    simp [Ocr.ocr_batch]
  · intro outs houts
    unfold Tqdm.ocr_single_image
    exact ocrSingleAux_all_fail _
      (fun o ho => houts o (List.mem_of_mem_take ho))

theorem C6_witness :
    isFailure HttpOutcome.timeout = true ∧
    Ocr.ocrBatchOne HttpOutcome.timeout = "" ∧
      Tqdm.ocr_single_image
        [HttpOutcome.connError, HttpOutcome.connError, HttpOutcome.timeout] =
        "" :=
  ⟨rfl,
   C6_failure_isolation_amended.1 HttpOutcome.timeout rfl,
   C6_failure_isolation_amended.2.2
     [HttpOutcome.connError, HttpOutcome.connError, HttpOutcome.timeout]
     (by decide)⟩

/-- Claim C7 counterexample: the claim asserts that when the persisted
ledger file exists but fails to parse as JSON, load never raises.
src/batch.py's `load_manifest` (lines 57-61) calls `json.loads` with no
exception handler, so a corrupt persisted ledger raises instead of
degrading to the empty ledger. -/
theorem C7_counterexample :
    Batch.load_manifest FileContent.corrupt =
      Except.error JsonError.parseError := rfl

/-- Claim C7 (amended): src/main.py's `load_manifest` returns the
previously persisted ledger when it exists and parses, and the empty
ledger (schema_version 1, generated_at None, empty zips map) when the
file is absent OR corrupt — it never raises.  src/batch.py's
`load_manifest` returns the persisted ledger when it parses and the
empty ledger when the file is absent, but RAISES the JSON parse error
when the file exists and fails to parse. -/
theorem C7_ledger_load_amended :
    (Main.load_manifest FileContent.absent = emptyManifest) ∧
    (Main.load_manifest FileContent.corrupt = emptyManifest) ∧
    (∀ m : Manifest, Main.load_manifest (FileContent.parsed m) = m) ∧
    (Batch.load_manifest FileContent.absent = Except.ok emptyManifest) ∧
    (∀ m : Manifest,
        Batch.load_manifest (FileContent.parsed m) = Except.ok m) ∧
    (Batch.load_manifest FileContent.corrupt =
        Except.error JsonError.parseError) :=
  ⟨rfl, rfl, fun _ => rfl, rfl, fun _ => rfl, rfl⟩

theorem mem_load_all_manifests_aux (files : List (FileContent Manifest))
    (acc : List String) (pdf : String)
    (h : pdf ∈ acc ∨
        ∃ m, FileContent.parsed m ∈ files ∧ ∃ p ∈ m.zips, pdf ∈ p.2.files) :
    pdf ∈ files.foldl
      (fun acc f =>
        match f with
        | .parsed m => acc ++ (m.zips.map (fun p => p.2.files)).flatten
        | _ => acc) acc := by
  induction files generalizing acc with
  | nil =>
      rcases h with h | ⟨m, hm, _⟩
      · exact h
      · simp at hm
  | cons f files ih =>
      simp only [List.foldl_cons]
      apply ih
      rcases h with h | ⟨m, hm, p, hp, hpdf⟩
      · left
        cases f with
        | parsed m => exact List.mem_append_left _ h
        | absent => exact h
        | corrupt => exact h
      · rcases List.mem_cons.mp hm with hm | hm
        · subst hm
          left
          apply List.mem_append_right
          exact List.mem_flatten.mpr ⟨p.2.files, List.mem_map.mpr ⟨p, hp, rfl⟩, hpdf⟩
        · right
          exact ⟨m, hm, p, hp, hpdf⟩

theorem recordedIn_mem_load_all_manifests (files : List (FileContent Manifest))
    (pdf : String) (h : Main.recordedIn files pdf) :
    pdf ∈ Main.load_all_manifests files :=
  mem_load_all_manifests_aux files [] pdf (Or.inr h)

theorem lookupBuf_setBuf_none (bufs : List (String × Main.DocState))
    (q pdf : String) (s : Main.DocState)
    (h : Main.lookupBuf bufs pdf = none) :
    Main.lookupBuf (Main.setBuf bufs q s) pdf = none := by
  unfold Main.lookupBuf Main.setBuf at *
  have hnone : bufs.find? (fun p => p.1 == pdf) = none := by
    cases hff : bufs.find? (fun p => p.1 == pdf) with
    | none => rfl
    | some p0 => rw [hff] at h; cases h
  rw [List.find?_map]
  have hcongr : ((fun p => p.1 == pdf) ∘
      (fun p => if p.1 == q then (q, s) else p)) =
      (fun p : String × Main.DocState => p.1 == pdf) := by
    funext p
    by_cases hp : p.1 = q
    · simp [hp]
    · simp [hp]
  rw [hcongr, hnone]
  rfl

theorem runDeliveries_not_committed (pdf : String) (ds : List Main.Delivery)
    (st : Main.AsmState) (hbuf : Main.lookupBuf st.bufs pdf = none)
    (hcom : pdf ∉ st.commits) :
    pdf ∉ (Main.runDeliveries st ds).commits := by
  induction ds generalizing st with
  | nil => exact hcom
  | cons d ds ih =>
      have hstep : Main.runDeliveries st (d :: ds) =
          Main.runDeliveries (Main.deliverStep st d) ds := rfl
      rw [hstep]
      cases hl : Main.lookupBuf st.bufs d.pdf with
      | none =>
          have hunch : Main.deliverStep st d = st := by
            unfold Main.deliverStep
            rw [hl]
          rw [hunch]
          exact ih st hbuf hcom
      | some s =>
          have hne : pdf ≠ d.pdf := by
            intro hh
            rw [hh] at hbuf
            rw [hbuf] at hl
            cases hl
          have hb' :
              Main.lookupBuf (Main.deliverStep st d).bufs pdf = none := by
            unfold Main.deliverStep
            rw [hl]
            by_cases hc : (s.deliver d.idx d.text).completeNow = true <;>
              simp [hc, lookupBuf_setBuf_none _ _ _ _ hbuf]
          have hc' : pdf ∉ (Main.deliverStep st d).commits := by
            unfold Main.deliverStep
            rw [hl]
            by_cases hc : (s.deliver d.idx d.text).completeNow = true <;>
              simp [hc, List.mem_append, hcom, hne]
          exact ih _ hb' hc'

theorem mem_addFile (z : ZipRecord) (pdf : String) :
    pdf ∈ (Batch.ZipRecord.addFile z pdf).files := by
  unfold Batch.ZipRecord.addFile
  by_cases h : z.files.contains pdf = true
  · rw [if_pos h]
    simpa using h
  · rw [if_neg h]
    simp

theorem in_manifest_add_manifest (m : Manifest) (zip_name pdf_name : String) :
    Batch.in_manifest (Batch.add_manifest m zip_name pdf_name) zip_name
      pdf_name = true := by
  unfold Batch.in_manifest Batch.add_manifest
  cases hfind : m.zips.find? (fun p => p.1 == zip_name) with
  | some p0 =>
      simp only [hfind]
      rw [List.find?_map]
      have hcongr : ((fun p => p.1 == zip_name) ∘
          (fun p => if p.1 == zip_name
                    then (p.1, Batch.ZipRecord.addFile p.2 pdf_name)
                    else p)) =
          (fun p : String × ZipRecord => p.1 == zip_name) := by
        funext p
        by_cases hp : p.1 = zip_name
        · simp [hp]
        · simp [hp]
      rw [hcongr, hfind]
      have hp0 : (p0.1 == zip_name) = true :=
        List.find?_some (p := fun q : String × ZipRecord => q.1 == zip_name)
          hfind
      have hp0' : p0.1 = zip_name := by simpa using hp0
      simp [hp0', mem_addFile]
  | none =>
      simp only [hfind]
      rw [List.find?_append, hfind]
      simp [mem_addFile]

/-- Claim C1: a document present in the Global Finished-File Index, the
Ledger, or the Cache is never re-dispatched to the OCR backend.  In
src/main.py's `process_zip` the name or cache-file skip checks (lines
144-151) exit before any page task is appended or assembler state
registered (a ledgered document is in the index because
`load_all_manifests` collects every name of every ledger that parses);
in src/batch.py's `process_pdf_from_zip` the manifest and cache checks
(lines 156-163) return with zero backend calls issued. -/
theorem C1_skip_correctness (globalFinished : List String)
    (cacheFileExists : String → Bool) (pdf_name : String)
    (infoPages : Option Nat) (images : List Nat)
    (mfiles : List (FileContent Manifest)) (m : Manifest)
    (zip_key : String) (cache : FileContent CacheEntry)
    (batchOutcomes : List HttpOutcome) :
    (pdf_name ∈ globalFinished ∨ cacheFileExists pdf_name = true →
      (Main.processZipEntry globalFinished cacheFileExists pdf_name infoPages
          images).tasks = [] ∧
      (Main.processZipEntry globalFinished cacheFileExists pdf_name infoPages
          images).buf = none) ∧
    (Main.recordedIn mfiles pdf_name →
      pdf_name ∈ Main.load_all_manifests mfiles) ∧
    (Batch.in_manifest m zip_key pdf_name = true ∨
        (Batch.load_cache cache).isSome = true →
      (Batch.process_pdf_from_zip m zip_key pdf_name cache infoPages
          batchOutcomes).ocrCalls = 0) := by
  refine ⟨?_, ?_, ?_⟩
  · intro h
    unfold Main.processZipEntry
    by_cases hmem : pdf_name ∈ globalFinished
    · rw [if_pos hmem]
      exact ⟨rfl, rfl⟩
    · rw [if_neg hmem]
      have hc : cacheFileExists pdf_name = true := h.resolve_left hmem
      simp [hc]
  · exact recordedIn_mem_load_all_manifests mfiles pdf_name
  · intro h
    unfold Batch.process_pdf_from_zip
    by_cases hm : Batch.in_manifest m zip_key pdf_name = true
    · simp [hm]
    · have hc : (Batch.load_cache cache).isSome = true := h.resolve_left hm
      rcases Option.isSome_iff_exists.mp hc with ⟨e, he⟩
      simp [hm, he]

theorem C1_witness :
    ((Main.processZipEntry ["done.pdf"] (fun _ => false) "done.pdf" (some 3)
        [1, 2, 3]).tasks = [] ∧
      (Main.processZipEntry ["done.pdf"] (fun _ => false) "done.pdf" (some 3)
        [1, 2, 3]).buf = none) ∧
    "done.pdf" ∈ Main.load_all_manifests
      [FileContent.parsed ⟨1, none, [("z.zip", ⟨1, ["done.pdf"]⟩)]⟩] ∧
    (Batch.process_pdf_from_zip ⟨1, none, [("z.zip", ⟨1, ["done.pdf"]⟩)]⟩
        "z.zip" "done.pdf" FileContent.absent (some 3) []).ocrCalls = 0 := by
  have h := C1_skip_correctness ["done.pdf"] (fun _ => false) "done.pdf"
    (some 3) [1, 2, 3]
    [FileContent.parsed ⟨1, none, [("z.zip", ⟨1, ["done.pdf"]⟩)]⟩]
    ⟨1, none, [("z.zip", ⟨1, ["done.pdf"]⟩)]⟩ "z.zip" FileContent.absent []
  refine ⟨h.1 (Or.inl (by simp)), h.2.1 ?_, h.2.2 (Or.inl (by rfl))⟩
  exact ⟨⟨1, none, [("z.zip", ⟨1, ["done.pdf"]⟩)]⟩, by simp,
    ("z.zip", ⟨1, ["done.pdf"]⟩), by simp, by simp⟩

/-- Claim C8: a document whose readable page count exceeds the
configured maximum is rejected before any OCR call and recorded
nowhere.  In src/main.py the entry exits at the MAX_PAGES check with no
page task and no assembler registration, and the commit loop can never
commit (hence never cache, ledger, or index) a document that has no
assembler entry; in src/batch.py `process_pdf_from_zip` returns at the
MAX_PAGES check with the manifest unchanged, no cache write and zero
backend calls — so on the next run the document is examined again. -/
theorem C8_oversized_rejection (globalFinished : List String)
    (cacheFileExists : String → Bool) (pdf_name : String) (total : Nat)
    (images : List Nat) (ds : List Main.Delivery) (st : Main.AsmState)
    (m : Manifest) (zip_key : String) (cache : FileContent CacheEntry)
    (btotal : Nat) (batchOutcomes : List HttpOutcome)
    (hnotfin : pdf_name ∉ globalFinished)
    (hnocache : cacheFileExists pdf_name = false)
    (hover : Main.MAX_PAGES < total)
    (hbuf : Main.lookupBuf st.bufs pdf_name = none)
    (hcom : pdf_name ∉ st.commits)
    (hman : Batch.in_manifest m zip_key pdf_name = false)
    (hbcache : Batch.load_cache cache = none)
    (hbover : Batch.MAX_PAGES < btotal) :
    Main.processZipEntry globalFinished cacheFileExists pdf_name (some total)
        images =
      { outcome := Main.MainOutcome.skipPages total, tasks := [],
        buf := none } ∧
    pdf_name ∉ (Main.runDeliveries st ds).commits ∧
    Batch.process_pdf_from_zip m zip_key pdf_name cache (some btotal)
        batchOutcomes =
      { outcome := Batch.BatchOutcome.skipPages btotal, manifest := m,
        cacheWrite := none, ocrCalls := 0 } := by
  refine ⟨?_, ?_, ?_⟩
  · unfold Main.processZipEntry
    rw [if_neg hnotfin]
    simp [hnocache, hover]
  · exact runDeliveries_not_committed pdf_name ds st hbuf hcom
  · unfold Batch.process_pdf_from_zip
    simp [hman, hbcache, hbover]

theorem C8_witness :
    Main.processZipEntry [] (fun _ => false) "big.pdf" (some 251) [] =
      { outcome := Main.MainOutcome.skipPages 251, tasks := [],
        buf := none } ∧
    "big.pdf" ∉ (Main.runDeliveries ⟨[], []⟩
        [⟨"other.pdf", 0, "t"⟩]).commits ∧
    Batch.process_pdf_from_zip emptyManifest "z.zip" "big.pdf"
        FileContent.absent (some 150) [] =
      { outcome := Batch.BatchOutcome.skipPages 150,
        manifest := emptyManifest, cacheWrite := none, ocrCalls := 0 } :=
  C8_oversized_rejection [] (fun _ => false) "big.pdf" 251 []
    [⟨"other.pdf", 0, "t"⟩] ⟨[], []⟩ emptyManifest "z.zip"
    FileContent.absent 150 [] (by simp) rfl (by decide) rfl (by simp)
    rfl rfl (by decide)

/-- Claim C9: in the manifest-tracking variants (src/batch.py 156-163,
src/tqdm.py 143-148), when a document is not yet in the manifest but its
Result Cache entry exists and parses, `process_pdf_from_zip` records the
document in the manifest via `add_manifest` and returns with no backend
call and no cache write — afterwards the document IS in the manifest, so
cache and ledger converge without redispatch. -/
theorem C9_cache_hit_repairs_ledger (m : Manifest) (zip_key pdf_name : String)
    (cache : FileContent CacheEntry) (infoPages : Option Nat)
    (batchOutcomes : List HttpOutcome) (entry : CacheEntry)
    (hman : Batch.in_manifest m zip_key pdf_name = false)
    (hcache : Batch.load_cache cache = some entry) :
    Batch.process_pdf_from_zip m zip_key pdf_name cache infoPages
        batchOutcomes =
      { outcome := Batch.BatchOutcome.cacheHit,
        manifest := Batch.add_manifest m zip_key pdf_name,
        cacheWrite := none, ocrCalls := 0 } ∧
    Batch.in_manifest (Batch.add_manifest m zip_key pdf_name) zip_key
      pdf_name = true := by
  constructor
  · unfold Batch.process_pdf_from_zip
    simp [hman, hcache]
  · exact in_manifest_add_manifest m zip_key pdf_name

theorem C9_witness :
    Batch.process_pdf_from_zip emptyManifest "z.zip" "a.pdf"
        (FileContent.parsed ⟨"a.pdf", 1, "hello"⟩) (some 1) [] =
      { outcome := Batch.BatchOutcome.cacheHit,
        manifest := Batch.add_manifest emptyManifest "z.zip" "a.pdf",
        cacheWrite := none, ocrCalls := 0 } ∧
    Batch.in_manifest (Batch.add_manifest emptyManifest "z.zip" "a.pdf")
      "z.zip" "a.pdf" = true :=
  C9_cache_hit_repairs_ledger emptyManifest "z.zip" "a.pdf"
    (FileContent.parsed ⟨"a.pdf", 1, "hello"⟩) (some 1) []
    ⟨"a.pdf", 1, "hello"⟩ rfl rfl

end SetupProject
